import Mathlib

/-!
Shallow embedding of the `IcrFS` virtual filesystem from `src/fsProvider.ts`
(vscode-iRule).  Nodes (the TS classes `File` and `Directory`) live in a heap
(`FS.store`) addressed by numeric ids so that the reference aliasing of the
TypeScript code (several variables pointing at the same mutable object) is
modelled faithfully.  Each mutating operation threads the heap in the order of
the source statements and returns the heap as it stands at the point of a
thrown error, so atomicity is a provable property rather than an artefact of
the encoding.
-/

set_option autoImplicit false

namespace IcrFS

/-- vscode.FileType: File or Directory. -/
inductive FType where
  | file
  | directory
deriving DecidableEq, Repr

/-- vscode.FileChangeType. -/
inductive ChangeType where
  | changed
  | created
  | deleted
deriving DecidableEq, Repr

/-- vscode.FileChangeEvent: a change kind and the uri (path) it targets. -/
structure Event where
  type : ChangeType
  uri : String
deriving DecidableEq, Repr

/-- The error taxonomy of vscode.FileSystemError as used by fsProvider.ts. -/
inductive FSErr where
  | FileNotFound
  | FileExists
  | FileIsADirectory
  | FileNotADirectory
deriving DecidableEq, Repr

/-- One heap node: the common shape of the TS classes `File` and `Directory`
(`type`, `ctime`, `mtime`, `size`, `name`; `data` is only ever set on files,
`entries` only on directories).  `entries` maps child name to child node id,
in insertion order, as a JS `Map` does. -/
structure Node where
  type : FType
  ctime : Nat
  mtime : Nat
  size : Int
  name : String
  data : Option (List Nat) := none
  entries : List (String × Nat) := []
deriving DecidableEq, Repr

/-- `new File(name)`: type File, timestamps now, size 0, no payload. -/
def mkFile (name : String) (now : Nat) : Node :=
  { type := .file, ctime := now, mtime := now, size := 0, name := name }

/-- `new Directory(name)`: type Directory, timestamps now, size 0, empty map. -/
def mkDir (name : String) (now : Nat) : Node :=
  { type := .directory, ctime := now, mtime := now, size := 0, name := name }

/-- The heap of nodes plus the id of the root directory and the next fresh id. -/
structure FS where
  store : List (Nat × Node)
  nextId : Nat
  root : Nat
deriving DecidableEq, Repr

/-- The filesystem as `IcrFS`'s constructor leaves it: a single root
directory with empty name. -/
def initFS : FS :=
  { store := [(0, mkDir "" 0)], nextId := 1, root := 0 }

/-- Dereference a node id in the heap. -/
def getN (fs : FS) (i : Nat) : Option Node :=
  (fs.store.find? (fun p => p.1 = i)).map (fun p => p.2)

/-- Mutate the node stored at id `i` in place. -/
def updN (fs : FS) (i : Nat) (f : Node → Node) : FS :=
  { fs with store := fs.store.map (fun p => if p.1 = i then (p.1, f p.2) else p) }

/-- Allocate a fresh node, returning the new heap and the new node's id. -/
def alloc (fs : FS) (n : Node) : FS × Nat :=
  ({ fs with store := fs.store ++ [(fs.nextId, n)], nextId := fs.nextId + 1 },
   fs.nextId)

/-! JS `Map` operations on the insertion-ordered association list. -/

/-- `map.get(k)`. -/
def mapGet (m : List (String × Nat)) (k : String) : Option Nat :=
  (m.find? (fun p => p.1 = k)).map (fun p => p.2)

/-- `map.has(k)`. -/
def mapHas (m : List (String × Nat)) (k : String) : Bool :=
  m.any (fun p => p.1 = k)

/-- `map.set(k, v)`: replace in place if the key is present, else append. -/
def mapSet (m : List (String × Nat)) (k : String) (v : Nat) : List (String × Nat) :=
  if mapHas m k then m.map (fun p => if p.1 = k then (k, v) else p)
  else m ++ [(k, v)]

/-- `map.delete(k)`. -/
def mapDelete (m : List (String × Nat)) (k : String) : List (String × Nat) :=
  m.filter (fun p => p.1 ≠ k)

/-! Path helpers: `uri.path.split('/')` and `path.posix.basename` /
`path.posix.dirname`, written out on character lists. -/

/-- Split a character list at every occurrence of `sep` (like JS
`String.prototype.split`, keeping empty pieces). -/
def splitAux (sep : Char) : List Char → List Char → List (List Char)
  | [], acc => [acc.reverse]
  | c :: rest, acc =>
    if c = sep then acc.reverse :: splitAux sep rest []
    else splitAux sep rest (c :: acc)

/-- `p.split('/')` with the empty segments dropped, which is exactly the
set of lookup steps `_lookup` performs (it `continue`s on falsy parts). -/
def pathSegs (p : String) : List String :=
  ((splitAux '/' p.data []).map (fun l => String.mk l)).filter (fun s => s ≠ "")

/-- Remove trailing `'/'` characters. -/
def dropTrailingSlashes (l : List Char) : List Char :=
  (l.reverse.dropWhile (fun c => c = '/')).reverse

/-- `path.posix.basename(p)`: the part after the last separator, ignoring
trailing separators. -/
def posixBasename (p : String) : String :=
  String.mk (((dropTrailingSlashes p.data).reverse.takeWhile (fun c => c ≠ '/')).reverse)

/-- `path.posix.dirname(p)`. -/
def posixDirname (p : String) : String :=
  let l := dropTrailingSlashes p.data
  let d := dropTrailingSlashes ((l.reverse.dropWhile (fun c => c ≠ '/')).reverse)
  if d.isEmpty then (if p.data.head? = some '/' then "/" else ".") else String.mk d

/-! The path resolver `_lookup` and its derived forms. -/

/-- One step of `_lookup`: from node `i`, follow segment `s`.  The TS code
only consults `entries` when the current entry `instanceof Directory`; on a
file (or a dangling id, impossible in real runs) the child is `undefined`. -/
def stepFS (fs : FS) (i : Nat) (s : String) : Option Nat :=
  match getN fs i with
  | none => none
  | some n => if n.type = .directory then mapGet n.entries s else none

/-- The walking loop of `_lookup`, permissive form: `undefined` is `none`. -/
def walkO (fs : FS) : Nat → List String → Option Nat
  | i, [] => some i
  | i, s :: rest =>
    match stepFS fs i s with
    | some c => walkO fs c rest
    | none => none

/-- `_lookup(uri, true)`: silent lookup from the root. -/
def lookupSilent (fs : FS) (p : String) : Option Nat :=
  walkO fs fs.root (pathSegs p)

/-- `_lookup(uri, false)`: a missing segment throws FileNotFound. -/
def lookupStrict (fs : FS) (p : String) : Except FSErr Nat :=
  match walkO fs fs.root (pathSegs p) with
  | some i => .ok i
  | none => .error .FileNotFound

/-- `_lookupAsDirectory(uri, false)`. -/
def lookupAsDirectory (fs : FS) (p : String) : Except FSErr Nat :=
  match lookupStrict fs p with
  | .error e => .error e
  | .ok i =>
    match getN fs i with
    | some n => if n.type = .directory then .ok i else .error .FileNotADirectory
    | none => .error .FileNotADirectory

/-- `_lookupAsFile(uri, false)`. -/
def lookupAsFile (fs : FS) (p : String) : Except FSErr Nat :=
  match lookupStrict fs p with
  | .error e => .error e
  | .ok i =>
    match getN fs i with
    | some n => if n.type = .file then .ok i else .error .FileIsADirectory
    | none => .error .FileIsADirectory

/-- `_lookupParentDirectory(uri)`. -/
def lookupParentDirectory (fs : FS) (p : String) : Except FSErr Nat :=
  lookupAsDirectory fs (posixDirname p)

/-- Result of a mutating operation: the heap as left behind (also on a thrown
error), the `_fireSoon` events issued, and the thrown error if any. -/
structure OpResult where
  fs : FS
  events : List Event
  err : Option FSErr
deriving DecidableEq, Repr

/-- Does the optional entry id point at a `Directory`?  (TS:
`entry instanceof Directory`, with `undefined instanceof Directory = false`.) -/
def entryIsDir (fs : FS) (entry : Option Nat) : Bool :=
  match entry with
  | none => false
  | some i =>
    match getN fs i with
    | some n => n.type = .directory
    | none => false

/-- `IcrFS.cacheRule(uri, content, options)` (the in-tree `putObject`):
lines 176-200 of fsProvider.ts, with `now` standing for `Date.now()`. -/
def cacheRule (fs : FS) (p : String) (content : List Nat)
    (create overwrite : Bool) (now : Nat) : OpResult :=
  let basename := posixBasename p
  match lookupParentDirectory fs p with
  | .error e => ⟨fs, [], some e⟩
  | .ok parentId =>
    let entry : Option Nat :=
      match getN fs parentId with
      | some n => mapGet n.entries basename
      | none => none
    if entryIsDir fs entry then ⟨fs, [], some .FileIsADirectory⟩
    else if entry.isNone && !create then ⟨fs, [], some .FileNotFound⟩
    else if entry.isSome && create && !overwrite then ⟨fs, [], some .FileExists⟩
    else
      match entry with
      | none =>
        let (fs1, newId) := alloc fs (mkFile basename now)
        let fs2 := updN fs1 parentId
          (fun n => { n with entries := mapSet n.entries basename newId })
        let fs3 := updN fs2 newId
          (fun n => { n with mtime := now, size := content.length, data := some content })
        ⟨fs3, [⟨.created, p⟩, ⟨.changed, p⟩], none⟩
      | some cid =>
        let fs1 := updN fs cid
          (fun n => { n with mtime := now, size := content.length, data := some content })
        ⟨fs1, [⟨.changed, p⟩], none⟩

/-- `IcrFS.rename(oldUri, newUri, options)`: lines 204-225 of fsProvider.ts.
The removal from the old parent keys on the node's current `name` field,
exactly as `oldParent.entries.delete(entry.name)` does. -/
def rename (fs : FS) (oldP newP : String) (overwrite : Bool) : OpResult :=
  if !overwrite && (lookupSilent fs newP).isSome then ⟨fs, [], some .FileExists⟩
  else
    match lookupStrict fs oldP with
    | .error e => ⟨fs, [], some e⟩
    | .ok entryId =>
      match lookupAsDirectory fs (posixDirname oldP) with
      | .error e => ⟨fs, [], some e⟩
      | .ok oldParentId =>
        match lookupAsDirectory fs (posixDirname newP) with
        | .error e => ⟨fs, [], some e⟩
        | .ok newParentId =>
          let newName := posixBasename newP
          let entryName :=
            match getN fs entryId with
            | some n => n.name
            | none => ""
          let fs1 := updN fs oldParentId
            (fun n => { n with entries := mapDelete n.entries entryName })
          let fs2 := updN fs1 entryId (fun n => { n with name := newName })
          let fs3 := updN fs2 newParentId
            (fun n => { n with entries := mapSet n.entries newName entryId })
          ⟨fs3, [⟨.deleted, oldP⟩, ⟨.created, newP⟩], none⟩

/-- `IcrFS.delete(uri)`: lines 227-238 of fsProvider.ts. -/
def deleteOp (fs : FS) (p : String) (now : Nat) : OpResult :=
  let dirname := posixDirname p
  let basename := posixBasename p
  match lookupAsDirectory fs dirname with
  | .error e => ⟨fs, [], some e⟩
  | .ok parentId =>
    let phas :=
      match getN fs parentId with
      | some n => mapHas n.entries basename
      | none => false
    if !phas then ⟨fs, [], some .FileNotFound⟩
    else
      let fs1 := updN fs parentId
        (fun n => { n with entries := mapDelete n.entries basename,
                           mtime := now, size := n.size - 1 })
      ⟨fs1, [⟨.changed, dirname⟩, ⟨.deleted, p⟩], none⟩

/-- `IcrFS.createDirectory(uri)`: lines 240-250 of fsProvider.ts. -/
def createDirectory (fs : FS) (p : String) (now : Nat) : OpResult :=
  let basename := posixBasename p
  let dirname := posixDirname p
  match lookupAsDirectory fs dirname with
  | .error e => ⟨fs, [], some e⟩
  | .ok parentId =>
    let (fs1, newId) := alloc fs (mkDir basename now)
    let fs2 := updN fs1 parentId
      (fun n => { n with entries := mapSet n.entries basename newId,
                         mtime := now, size := n.size + 1 })
    ⟨fs2, [⟨.changed, dirname⟩, ⟨.created, p⟩], none⟩

/-- `IcrFS.readFile(uri)`: lines 143-150.  `if (data) return data` returns the
payload whenever the field is set (an empty byte array is still truthy);
an unset payload throws FileNotFound. -/
def readFile (fs : FS) (p : String) : Except FSErr (List Nat) :=
  match lookupAsFile fs p with
  | .error e => .error e
  | .ok i =>
    match getN fs i with
    | some n =>
      match n.data with
      | some d => .ok d
      | none => .error .FileNotFound
    | none => .error .FileNotFound

/-! The Write-Through Persister's URL computation (`writeFile`, line 158):
`apiUrl + '/ltm/rule/' + uri.path.replace(/\//g,'~').substr(0, uri.path.length-5)`. -/

/-- The per-character substitution of `replace` with pattern `/\//g`. -/
def tildeChar (c : Char) : Char :=
  if c = '/' then '~' else c

/-- `p.replace(/\//g,'~')`. -/
def tildeEncode (p : String) : String :=
  String.mk (p.data.map tildeChar)

/-- The resource identifier placed after `/ltm/rule/` in the PUT URL:
the slash-substituted path truncated to `p.length - 5` characters. -/
def writeFileRuleId (p : String) : String :=
  String.mk ((p.data.map tildeChar).take (p.data.length - 5))

/-- The full PUT URL built by `writeFile` for host `host` and path `p`. -/
def writeFileUrl (host : String) (p : String) : String :=
  "https://" ++ host ++ "/mgmt/tm" ++ "/ltm/rule/" ++ writeFileRuleId p

/-! The Change Notifier `_fireSoon` (lines 320-331) and its timer. -/

/-- Notifier state: the pending batch `buffered` (`_bufferedEvents`), the
armed timer's absolute deadline if one is pending (`_fireSoonHandle`), and
the log of batches delivered so far through `_emitter.fire`. -/
structure NState where
  buffered : List Event
  handle : Option Nat
  delivered : List (List Event)
deriving DecidableEq, Repr

/-- The notifier before any event: empty batch, no timer, nothing delivered. -/
def initNState : NState :=
  { buffered := [], handle := none, delivered := [] }

/-- `_fireSoon(...events)` called at wall-clock `now`: push the events, clear
any pending timer, and arm a fresh 5 ms timer (deadline `now + 5`). -/
def fireSoon (s : NState) (now : Nat) (events : List Event) : NState :=
  { buffered := s.buffered ++ events,
    handle := some (now + 5),
    delivered := s.delivered }

/-- The timer callback: fire the whole batch as one delivery and reset. -/
def timerFire (s : NState) : NState :=
  { buffered := [], handle := none, delivered := s.delivered ++ [s.buffered] }

/-- The slash-concatenated trace of node ids a `_lookup` walk visits,
including both endpoints.  A proof-side companion of `walkO`. -/
def walkTrace (fs : FS) : Nat → List String → Option (List Nat)
  | i, [] => some [i]
  | i, s :: rest =>
    match stepFS fs i s with
    | some c => (walkTrace fs c rest).map (fun t => i :: t)
    | none => none

/-- One of the four Tree Mutator operations, with its arguments. -/
inductive MutOp where
  | mkdir (p : String) (now : Nat)
  | put (p : String) (content : List Nat) (create overwrite : Bool) (now : Nat)
  | move (oldP newP : String) (overwrite : Bool)
  | remove (p : String) (now : Nat)
deriving DecidableEq, Repr

/-- Dispatch a Tree Mutator operation. -/
def applyOp (fs : FS) : MutOp → OpResult
  | .mkdir p now => createDirectory fs p now
  | .put p c cr ov now => cacheRule fs p c cr ov now
  | .move o n ov => rename fs o n ov
  | .remove p now => deleteOp fs p now

/-- One `putObject` call of a synchronous burst. -/
structure PutCall where
  p : String
  content : List Nat
  create : Bool
  overwrite : Bool
  now : Nat
deriving DecidableEq, Repr

/-- Run a synchronous burst of `putObject` calls: each call mutates the tree
and hands each of its change records to `_fireSoon`.  No timer callback can
run inside the burst (JS run-to-completion), so `timerFire` never occurs
here. -/
def runBurst : FS → NState → List PutCall → FS × NState
  | fs, ns, [] => (fs, ns)
  | fs, ns, c :: rest =>
    let r := cacheRule fs c.p c.content c.create c.overwrite c.now
    let ns' := r.events.foldl (fun s ev => fireSoon s c.now [ev]) ns
    runBurst r.fs ns' rest

/-- The change records the calls of a burst generate, in order, computed by
replaying the calls on the evolving tree. -/
def burstEvents : FS → List PutCall → List Event
  | _, [] => []
  | fs, c :: rest =>
    let r := cacheRule fs c.p c.content c.create c.overwrite c.now
    r.events ++ burstEvents r.fs rest

/-! The Remote Sync Engine (`connect`, lines 58-120) and the `icrfs.connect`
command of the extension (extension source, lines 140-168). -/

/-- One item of a remote collection: `fullPath` plus the rule body
(`apiAnonymous`), already as bytes. -/
structure RuleItem where
  fullPath : String
  apiAnonymous : List Nat
deriving DecidableEq, Repr

/-- Outcome of one HTTP request: a transport-level failure (network error or
unparseable body, both of which make the callback throw), or a parsed item
list. -/
inductive Transport where
  | failure (msg : String)
  | success (items : List RuleItem)
deriving DecidableEq, Repr

/-- Phase-1 per-item handling (lines 88-97): skip the root item, try
`createDirectory` on `'icrfs://' + fullPath + '/'` (whose uri path is
`fullPath + "/"`), and swallow any per-item error. -/
def phase1Item (fs : FS) (it : RuleItem) (now : Nat) : FS :=
  if it.fullPath = "/" then fs
  else (createDirectory fs (it.fullPath ++ "/") now).fs

/-- Phase-2 per-item handling (lines 105-114): skip the root item, try
`cacheRule` on `fullPath + ".irul"` with `{create: true, overwrite: true}`,
and swallow any per-item error. -/
def phase2Item (fs : FS) (it : RuleItem) (now : Nat) : FS :=
  if it.fullPath = "/" then fs
  else (cacheRule fs (it.fullPath ++ ".irul") it.apiAnonymous true true now).fs

/-- What the asynchronous completion of `connect`'s nested requests leaves
behind: the tree, and the error a callback threw, which no caller catches —
in particular it never reaches `connect`'s invoker, whose own call returned
long before. -/
structure ConnectOutcome where
  fs : FS
  uncaught : Option String
deriving DecidableEq, Repr

/-- The two nested request callbacks of `connect`: a phase-1 transport
failure throws before phase 2 is ever issued; a phase-2 failure throws with
the phase-1 directories already inserted.  No failure path undoes anything. -/
def runConnect (fs : FS) (now : Nat) (phase1 phase2 : Transport) : ConnectOutcome :=
  match phase1 with
  | .failure msg => ⟨fs, some msg⟩
  | .success items =>
    let fs1 := items.foldl (fun a it => phase1Item a it now) fs
    match phase2 with
    | .failure msg => ⟨fs1, some msg⟩
    | .success rules => ⟨rules.foldl (fun a it => phase2Item a it now) fs1, none⟩

/-- The `icrfs.connect` command handler: guarded by the module-level
`initFlag` boolean (the `initialized` variable), which it sets to `true`
before calling `connect` and which no failure path ever resets.  Returns the
new guard and whether a population run was started. -/
def connectCommand (initFlag : Bool) : Bool × Bool :=
  if initFlag then (initFlag, false) else (true, true)

/-- A connect command followed by the asynchronous completion of its
population requests: final guard value, final tree, and the uncaught
callback error.  The completion touches neither the guard nor any
engine-state field — there is none to revert. -/
def commandThenComplete (initFlag : Bool) (fs : FS) (phase1 phase2 : Transport)
    (now : Nat) : Bool × FS × Option String :=
  let g := connectCommand initFlag
  if g.2 then
    let o := runConnect fs now phase1 phase2
    (g.1, o.fs, o.uncaught)
  else (g.1, fs, none)

/-! Concrete fixtures used by the witnesses and counterexamples. -/

/-- A root holding two files: `f` with no payload yet, `g` with payload. -/
def fsTwoFiles : FS :=
  { store := [(0, { mkDir "" 0 with entries := [("f", 1), ("g", 2)] }),
              (1, mkFile "f" 0),
              (2, { mkFile "g" 0 with data := some [3], size := 1 })],
    nextId := 3, root := 0 }

/-- A root holding directory `a`, which holds file `x` with payload. -/
def fsDirWithFile : FS :=
  { store := [(0, { mkDir "" 0 with entries := [("a", 1)] }),
              (1, { mkDir "a" 0 with entries := [("x", 2)] }),
              (2, { mkFile "x" 0 with data := some [1, 2], size := 2 })],
    nextId := 3, root := 0 }

/-- A root holding a single empty directory `a`. -/
def fsLoneDir : FS :=
  { store := [(0, { mkDir "" 0 with entries := [("a", 1)] }),
              (1, mkDir "a" 0)],
    nextId := 2, root := 0 }

/-! Lemmas about the JS `Map` model. -/

theorem mapGet_cons (p : String × Nat) (rest : List (String × Nat)) (k : String) :
    mapGet (p :: rest) k = if p.1 = k then some p.2 else mapGet rest k := by
  by_cases h : p.1 = k <;> simp [mapGet, List.find?, h]

theorem mapDelete_cons (p : String × Nat) (rest : List (String × Nat)) (k : String) :
    mapDelete (p :: rest) k =
      if p.1 = k then mapDelete rest k else p :: mapDelete rest k := by
  by_cases h : p.1 = k <;> simp [mapDelete, List.filter, h]

theorem mapHas_cons (p : String × Nat) (rest : List (String × Nat)) (k : String) :
    mapHas (p :: rest) k = (decide (p.1 = k) || mapHas rest k) := by
  simp [mapHas]

theorem mapGet_mapDelete_self (m : List (String × Nat)) (k : String) :
    mapGet (mapDelete m k) k = none := by
  induction m with
  | nil => rfl
  | cons p rest ih =>
    rw [mapDelete_cons]
    by_cases h : p.1 = k
    · rw [if_pos h]; exact ih
    · rw [if_neg h, mapGet_cons, if_neg h]; exact ih

theorem mapGet_mapDelete_ne (m : List (String × Nat)) (k k' : String) (h : k' ≠ k) :
    mapGet (mapDelete m k) k' = mapGet m k' := by
  induction m with
  | nil => rfl
  | cons p rest ih =>
    rw [mapDelete_cons, mapGet_cons]
    by_cases h1 : p.1 = k
    · have h2 : ¬(p.1 = k') := by rw [h1]; exact fun hc => h hc.symm
      rw [if_pos h1, if_neg h2]; exact ih
    · rw [if_neg h1, mapGet_cons]
      by_cases h2 : p.1 = k' <;> simp only [if_pos, if_neg, h2, ite_true, ite_false]
      exact ih

theorem mapGet_mapReplace_self (m : List (String × Nat)) (k : String) (v : Nat)
    (hh : mapHas m k = true) :
    mapGet (m.map (fun p => if p.1 = k then (k, v) else p)) k = some v := by
  induction m with
  | nil => simp [mapHas] at hh
  | cons p rest ih =>
    by_cases h1 : p.1 = k
    · simp only [List.map_cons, if_pos h1, mapGet_cons, ite_true]
    · rw [mapHas_cons] at hh
      simp [h1] at hh
      simp only [List.map_cons, if_neg h1, mapGet_cons, if_neg h1]
      exact ih hh

theorem mapGet_append_single_self (m : List (String × Nat)) (k : String) (v : Nat)
    (hh : ¬(mapHas m k = true)) :
    mapGet (m ++ [(k, v)]) k = some v := by
  induction m with
  | nil => simp [mapGet, List.find?]
  | cons p rest ih =>
    rw [mapHas_cons] at hh
    have h1 : ¬(p.1 = k) := fun hc => hh (by simp [hc])
    have hh' : ¬(mapHas rest k = true) := fun hc => hh (by simp [hc])
    rw [List.cons_append, mapGet_cons, if_neg h1]
    exact ih hh'

theorem mapGet_mapSet_self (m : List (String × Nat)) (k : String) (v : Nat) :
    mapGet (mapSet m k v) k = some v := by
  unfold mapSet
  by_cases hh : mapHas m k = true
  · rw [if_pos hh]; exact mapGet_mapReplace_self m k v hh
  · rw [if_neg (by simpa using hh)]; exact mapGet_append_single_self m k v hh

theorem mapGet_mapSet_ne (m : List (String × Nat)) (k k' : String) (v : Nat)
    (h : k' ≠ k) :
    mapGet (mapSet m k v) k' = mapGet m k' := by
  have hk : ¬(k = k') := fun hc => h hc.symm
  unfold mapSet
  by_cases hh : mapHas m k = true
  · rw [if_pos hh]
    clear hh
    induction m with
    | nil => rfl
    | cons p rest ih =>
      by_cases h1 : p.1 = k
      · have h2 : ¬(p.1 = k') := by rw [h1]; exact hk
        rw [List.map_cons, if_pos h1, mapGet_cons, mapGet_cons]
        show (if k = k' then some v else _) = _
        rw [if_neg hk, if_neg h2]
        exact ih
      · rw [List.map_cons, if_neg h1, mapGet_cons, mapGet_cons]
        by_cases h2 : p.1 = k'
        · rw [if_pos h2, if_pos h2]
        · rw [if_neg h2, if_neg h2]; exact ih
  · rw [if_neg (by simpa using hh)]
    clear hh
    induction m with
    | nil =>
      show mapGet [(k, v)] k' = mapGet [] k'
      rw [mapGet_cons]
      exact if_neg hk
    | cons p rest ih =>
      rw [List.cons_append, mapGet_cons, mapGet_cons]
      by_cases h2 : p.1 = k'
      · rw [if_pos h2, if_pos h2]
      · rw [if_neg h2, if_neg h2]; exact ih

/-! Lemmas about the heap. -/

theorem find?_replace_self (l : List (Nat × Node)) (i : Nat) (f : Node → Node) :
    (l.map (fun p => if p.1 = i then (p.1, f p.2) else p)).find?
        (fun p => p.1 = i) =
      (l.find? (fun p => p.1 = i)).map (fun p => (p.1, f p.2)) := by
  induction l with
  | nil => rfl
  | cons p rest ih =>
    by_cases h1 : p.1 = i
    · rw [List.map_cons, if_pos h1,
        List.find?_cons_of_pos _ (by simp [h1]),
        List.find?_cons_of_pos _ (by simp [h1])]
      rfl
    · rw [List.map_cons, if_neg h1,
        List.find?_cons_of_neg _ (by simp [h1]),
        List.find?_cons_of_neg _ (by simp [h1])]
      exact ih

theorem find?_replace_ne (l : List (Nat × Node)) (i j : Nat) (f : Node → Node)
    (h : i ≠ j) :
    (l.map (fun p => if p.1 = j then (p.1, f p.2) else p)).find?
        (fun p => p.1 = i) =
      l.find? (fun p => p.1 = i) := by
  induction l with
  | nil => rfl
  | cons p rest ih =>
    by_cases h1 : p.1 = j
    · have h2 : ¬(p.1 = i) := by rw [h1]; exact fun hc => h hc.symm
      rw [List.map_cons, if_pos h1,
        List.find?_cons_of_neg _ (by simp [h2]),
        List.find?_cons_of_neg _ (by simp [h2])]
      exact ih
    · rw [List.map_cons, if_neg h1]
      by_cases h2 : p.1 = i
      · rw [List.find?_cons_of_pos _ (by simp [h2]),
          List.find?_cons_of_pos _ (by simp [h2])]
      · rw [List.find?_cons_of_neg _ (by simp [h2]),
          List.find?_cons_of_neg _ (by simp [h2])]
        exact ih

theorem getN_updN_self (fs : FS) (i : Nat) (f : Node → Node) :
    getN (updN fs i f) i = (getN fs i).map f := by
  unfold getN updN
  simp only [find?_replace_self]
  cases fs.store.find? (fun p => p.1 = i) <;> rfl

theorem getN_updN_ne (fs : FS) (i j : Nat) (f : Node → Node) (h : i ≠ j) :
    getN (updN fs j f) i = getN fs i := by
  unfold getN updN
  simp only [find?_replace_ne fs.store i j f h]

theorem find?_append_left {α : Type} (l₁ l₂ : List α) (f : α → Bool) (a : α)
    (h : l₁.find? f = some a) : (l₁ ++ l₂).find? f = some a := by
  rw [List.find?_append, h]
  rfl

theorem find?_append_none {α : Type} (l₁ l₂ : List α) (f : α → Bool)
    (h : l₁.find? f = none) : (l₁ ++ l₂).find? f = l₂.find? f := by
  rw [List.find?_append, h]
  rfl

theorem getN_alloc_old (fs : FS) (n : Node) (i : Nat) (m : Node)
    (h : getN fs i = some m) : getN (alloc fs n).1 i = some m := by
  unfold getN alloc at *
  cases hf : fs.store.find? (fun p => p.1 = i) with
  | none => rw [hf] at h; exact absurd h (by simp)
  | some p =>
    rw [hf] at h
    simp only [find?_append_left fs.store [(fs.nextId, n)] _ p hf]
    exact h

theorem getN_alloc_new (fs : FS) (n : Node) (h : getN fs fs.nextId = none) :
    getN (alloc fs n).1 fs.nextId = some n := by
  unfold getN alloc at *
  cases hf : fs.store.find? (fun p => p.1 = fs.nextId) with
  | some p => rw [hf] at h; exact absurd h (by simp)
  | none =>
    simp only [find?_append_none fs.store [(fs.nextId, n)] _ hf]
    simp [List.find?]

/-! Lemmas about the walk. -/

theorem walkO_cons (fs : FS) (i : Nat) (s : String) (rest : List String) :
    walkO fs i (s :: rest) =
      match stepFS fs i s with
      | some c => walkO fs c rest
      | none => none := rfl

theorem walkO_append (fs : FS) (xs ys : List String) :
    ∀ i, walkO fs i (xs ++ ys) =
      match walkO fs i xs with
      | some j => walkO fs j ys
      | none => none := by
  induction xs with
  | nil => intro i; rfl
  | cons s rest ih =>
    intro i
    rw [List.cons_append, walkO_cons, walkO_cons]
    cases stepFS fs i s with
    | none => rfl
    | some c => exact ih c

theorem walkTrace_cons_elim (fs : FS) (i : Nat) (s : String) (rest : List String)
    (tr : List Nat) (h : walkTrace fs i (s :: rest) = some tr) :
    ∃ c t, stepFS fs i s = some c ∧ walkTrace fs c rest = some t ∧
      tr = i :: t := by
  unfold walkTrace at h
  split at h
  · next c hc =>
    cases ht : walkTrace fs c rest with
    | none => rw [ht] at h; exact absurd h (by simp)
    | some t =>
      rw [ht] at h
      simp at h
      exact ⟨c, t, hc, ht, h.symm⟩
  · exact absurd h (by simp)

theorem walkTrace_nonempty (fs : FS) (segs : List String) (i : Nat) (tr : List Nat)
    (h : walkTrace fs i segs = some tr) : ∃ t, tr = i :: t := by
  cases segs with
  | nil => exact ⟨[], by simpa [walkTrace] using h.symm⟩
  | cons s rest =>
    obtain ⟨c, t, _, _, htr⟩ := walkTrace_cons_elim fs i s rest tr h
    exact ⟨t, htr⟩

theorem walkTrace_last (fs : FS) :
    ∀ (segs : List String) (i : Nat) (tr : List Nat) (x : Nat),
      walkTrace fs i segs = some tr → tr.getLast? = some x →
      walkO fs i segs = some x := by
  intro segs
  induction segs with
  | nil =>
    intro i tr x h hx
    simp [walkTrace] at h
    rw [← h] at hx
    simp [List.getLast?] at hx
    simp [walkO, hx]
  | cons s rest ih =>
    intro i tr x h hx
    obtain ⟨c, t, hs, ht, htr⟩ := walkTrace_cons_elim fs i s rest tr h
    obtain ⟨t2, ht2⟩ := walkTrace_nonempty fs rest c t ht
    have hlast : t.getLast? = some x := by
      rw [htr, ht2] at hx
      rw [ht2]
      rwa [List.getLast?_cons_cons] at hx
    rw [walkO_cons, hs]
    exact ih c t x ht hlast

theorem walkTrace_steps (fs : FS) :
    ∀ (segs : List String) (i : Nat) (tr : List Nat),
      walkTrace fs i segs = some tr →
      ∀ (j : Nat) (a : Nat) (s : String) (b : Nat),
        tr.get? j = some a → segs.get? j = some s → tr.get? (j + 1) = some b →
        stepFS fs a s = some b := by
  intro segs
  induction segs with
  | nil =>
    intro i tr h j a s b _ hs _
    simp at hs
  | cons s0 rest ih =>
    intro i tr h j a s b ha hs hb
    obtain ⟨c, t, hse, ht, htr⟩ := walkTrace_cons_elim fs i s0 rest tr h
    subst htr
    cases j with
    | zero =>
      obtain ⟨t2, ht2⟩ := walkTrace_nonempty fs rest c t ht
      rw [List.get?_cons_zero] at ha
      rw [List.get?_cons_zero] at hs
      rw [List.get?_cons_succ, ht2, List.get?_cons_zero] at hb
      injection ha with ha
      injection hs with hs
      injection hb with hb
      subst ha; subst hs; subst hb
      exact hse
    | succ j' =>
      rw [List.get?_cons_succ] at ha hb
      rw [List.get?_cons_succ] at hs
      exact ih c t ht j' a s b ha hs hb

theorem walkTrace_congr (fs fs' : FS) :
    ∀ (segs : List String) (i : Nat) (tr : List Nat),
      walkTrace fs i segs = some tr →
      (∀ (j : Nat) (a : Nat) (s : String) (b : Nat),
        tr.get? j = some a → segs.get? j = some s → tr.get? (j + 1) = some b →
        stepFS fs' a s = some b) →
      walkTrace fs' i segs = some tr := by
  intro segs
  induction segs with
  | nil => intro i tr h _; exact h
  | cons s0 rest ih =>
    intro i tr h hcond
    obtain ⟨c, t, hse, ht, htr⟩ := walkTrace_cons_elim fs i s0 rest tr h
    subst htr
    obtain ⟨t2, ht2⟩ := walkTrace_nonempty fs rest c t ht
    have hse' : stepFS fs' i s0 = some c := by
      apply hcond 0 i s0 c <;> simp [ht2]
    have ht' : walkTrace fs' c rest = some t := by
      apply ih c t ht
      intro j a s b ha hs hb
      refine hcond (j + 1) a s b ?_ ?_ ?_
      · rwa [List.get?_cons_succ]
      · rwa [List.get?_cons_succ]
      · rwa [List.get?_cons_succ]
    unfold walkTrace
    rw [hse']
    show Option.map (fun t => i :: t) (walkTrace fs' c rest) = some (i :: t)
    rw [ht']
    rfl

theorem mem_of_get? {α : Type} (l : List α) (j : Nat) (a : α)
    (h : l.get? j = some a) : a ∈ l := by
  induction l generalizing j with
  | nil => simp at h
  | cons x xs ih =>
    cases j with
    | zero =>
      rw [List.get?_cons_zero] at h
      injection h with h
      subst h
      exact List.mem_cons_self _ _
    | succ j' =>
      rw [List.get?_cons_succ] at h
      exact List.mem_cons_of_mem _ (ih j' h)

theorem mem_of_getLast? {α : Type} (l : List α) (a : α)
    (h : l.getLast? = some a) : a ∈ l := by
  induction l with
  | nil => simp at h
  | cons x xs ih =>
    cases hx : xs with
    | nil => subst hx; simp [List.getLast?] at h; simp [h]
    | cons y ys =>
      subst hx
      rw [List.getLast?_cons_cons] at h
      exact List.mem_cons_of_mem _ (ih h)

/-! Claim theorems. -/

/-- C1 (counterexample): with a delivery timer already pending (deadline 5),
a record arriving at time 3 does NOT leave the timer's deadline alone —
`_fireSoon` clears the pending timer and arms a fresh one, so the claim that
an already-armed timer keeps its original deadline is false on the code. -/
theorem c1_counterexample :
    (fireSoon { buffered := [], handle := some 5, delivered := [] } 3
        [{ type := .changed, uri := "/x" }]).handle = some 8 ∧
    ((fireSoon { buffered := [], handle := some 5, delivered := [] } 3
        [{ type := .changed, uri := "/x" }]).handle = some 5) = False :=
  ⟨by decide, eq_false (by decide)⟩

/-- C1 (amended): every arrival — also one while a timer is pending — clears
any armed timer and arms a fresh one with a full delay window (deadline
`now + 5`); the pending batch grows by the new records and nothing is
delivered by the arrival itself. -/
theorem c1_fireSoon_debounce (s : NState) (now : Nat) (evs : List Event) :
    (fireSoon s now evs).buffered = s.buffered ++ evs ∧
    (fireSoon s now evs).handle = some (now + 5) ∧
    (fireSoon s now evs).delivered = s.delivered :=
  ⟨rfl, rfl, rfl⟩

/-- C5: for every path ending in the fixed 5-character suffix `.irul`, the
identifier `writeFile` places after `/ltm/rule/` in the PUT URL is the path
with every `/` replaced by `~` and the suffix stripped — a purely textual
projection of the virtual path. -/
theorem c5_writeFileUrl (host q : String) :
    writeFileUrl host (q ++ ".irul") =
      "https://" ++ host ++ "/mgmt/tm" ++ "/ltm/rule/" ++ tildeEncode q := by
  have hl : writeFileRuleId (q ++ ".irul") = tildeEncode q := by
    unfold writeFileRuleId tildeEncode
    rw [String.data_append, List.map_append, List.length_append]
    have h5 : (".irul" : String).data.length = 5 := rfl
    rw [h5]
    rw [List.take_left' (by simp)]
  unfold writeFileUrl
  rw [hl]

/-- C9: `readFile` on a path resolving to an existing File node returns the
stored bytes exactly when a payload is present; a File whose `data` field was
never populated makes it throw FileNotFound instead of returning empty
content. -/
theorem c9_readFile_unpopulated (fs : FS) (p : String) (i : Nat) (n : Node)
    (hf : lookupAsFile fs p = .ok i) (hn : getN fs i = some n) :
    (n.data = none → readFile fs p = .error .FileNotFound) ∧
    (∀ d, n.data = some d → readFile fs p = .ok d) := by
  constructor
  · intro hd
    simp only [readFile, hf, hn, hd]
  · intro d hd
    simp only [readFile, hf, hn, hd]

/-- C9 (witness): in `fsTwoFiles`, file `/f` exists but has no payload and
reading it fails with FileNotFound, while `/g` has payload `[3]` and reads
back exactly those bytes. -/
theorem c9_witness :
    readFile fsTwoFiles "/f" = .error .FileNotFound ∧
    readFile fsTwoFiles "/g" = .ok [3] :=
  ⟨(c9_readFile_unpopulated fsTwoFiles "/f" 1 (mkFile "f" 0)
      (by rfl) (by rfl)).1 rfl,
   (c9_readFile_unpopulated fsTwoFiles "/g" 2
      { mkFile "g" 0 with data := some [3], size := 1 }
      (by rfl) (by rfl)).2 [3] rfl⟩

/-- C2 (code evaluated at the failing input): a transport failure during
population does NOT propagate to `connect`'s invoker and does NOT revert any
state so that a retry could repopulate.  Concretely: starting from the guard
clear, the connect command sets the guard; a phase-1 network failure ends as
an uncaught callback exception with the guard still set, so a subsequent
connect command refuses to run a new population; and a phase-2 failure
additionally leaves the phase-1 directories behind as a half-populated
tree. -/
theorem c2_connect_failure_not_propagated :
    commandThenComplete false initFS (.failure "ECONNREFUSED") (.success []) 0 =
      (true, initFS, some "ECONNREFUSED") ∧
    connectCommand true = (true, false) ∧
    ((commandThenComplete false initFS
        (.success [⟨"/Common", []⟩]) (.failure "ECONNREFUSED") 0).1 = true ∧
      (commandThenComplete false initFS
        (.success [⟨"/Common", []⟩]) (.failure "ECONNREFUSED") 0).2.2 =
          some "ECONNREFUSED" ∧
      lookupSilent (commandThenComplete false initFS
        (.success [⟨"/Common", []⟩]) (.failure "ECONNREFUSED") 0).2.1 "/Common" =
          some 1) := by
  decide

/-- C6: when the parent of `p` resolves as a directory, `createDirectory`
never fails (in particular never with "already exists"): it writes the new
directory's id over any same-named entry in the parent's mapping (`mapSet`
replaces in place), increments the parent's entry-count pseudo-size by one
and sets the parent's modification time, unconditionally. -/
theorem c6_createDirectory_silent_overwrite (fs : FS) (p : String)
    (parentId : Nat) (pn : Node) (now : Nat)
    (hpar : lookupAsDirectory fs (posixDirname p) = .ok parentId)
    (hn : getN fs parentId = some pn) :
    (createDirectory fs p now).err = none ∧
    getN (createDirectory fs p now).fs parentId =
      some { pn with entries := mapSet pn.entries (posixBasename p) fs.nextId,
                     mtime := now, size := pn.size + 1 } ∧
    mapGet (mapSet pn.entries (posixBasename p) fs.nextId) (posixBasename p) =
      some fs.nextId := by
  have key : createDirectory fs p now =
      ⟨updN (alloc fs (mkDir (posixBasename p) now)).1 parentId
          (fun n => { n with entries := mapSet n.entries (posixBasename p) fs.nextId,
                             mtime := now, size := n.size + 1 }),
       [⟨.changed, posixDirname p⟩, ⟨.created, p⟩], none⟩ := by
    simp only [createDirectory, hpar]
    rfl
  refine ⟨by rw [key], ?_, mapGet_mapSet_self _ _ _⟩
  rw [key]
  show getN (updN _ parentId _) parentId = _
  rw [getN_updN_self]
  rw [getN_alloc_old fs (mkDir (posixBasename p) now) parentId pn hn]
  rfl

/-- C6 (witness): in `fsDirWithFile`, `createDirectory "/a"` succeeds even
though entry `a` already exists, silently replacing it in the root's mapping
with the freshly allocated directory (id 3), incrementing the root's
pseudo-size and stamping its mtime. -/
theorem c6_witness :
    (createDirectory fsDirWithFile "/a" 7).err = none ∧
    getN (createDirectory fsDirWithFile "/a" 7).fs 0 =
      some { type := .directory, ctime := 0, mtime := 7, size := 1, name := "",
             data := none, entries := [("a", 3)] } := by
  have h := c6_createDirectory_silent_overwrite fsDirWithFile "/a" 0
    { mkDir "" 0 with entries := [("a", 1)] } 7 (by rfl) (by rfl)
  refine ⟨h.1, ?_⟩
  rw [h.2.1]
  rfl

/-- C4: with the parent of `p` resolving as a directory, `cacheRule` fails
with "is a directory" when the entry at the final segment is a Directory,
with "not found" when it is absent and `create` is false, with "already
exists" when it is present, `create` is true and `overwrite` is false; in
every other case it succeeds — creating the File when absent, then setting
payload, size = payload length and modification time. -/
theorem c4_cacheRule_cases (fs : FS) (p : String) (content : List Nat)
    (create overwrite : Bool) (now : Nat) (parentId : Nat) (pn : Node)
    (hpar : lookupParentDirectory fs p = .ok parentId)
    (hn : getN fs parentId = some pn)
    (hfresh : getN fs fs.nextId = none) :
    (∀ cid, mapGet pn.entries (posixBasename p) = some cid →
      entryIsDir fs (some cid) = true →
      cacheRule fs p content create overwrite now =
        ⟨fs, [], some .FileIsADirectory⟩) ∧
    (mapGet pn.entries (posixBasename p) = none → create = false →
      cacheRule fs p content create overwrite now =
        ⟨fs, [], some .FileNotFound⟩) ∧
    (∀ cid, mapGet pn.entries (posixBasename p) = some cid →
      entryIsDir fs (some cid) = false → create = true → overwrite = false →
      cacheRule fs p content create overwrite now =
        ⟨fs, [], some .FileExists⟩) ∧
    (∀ cid n, mapGet pn.entries (posixBasename p) = some cid →
      entryIsDir fs (some cid) = false → (create = false ∨ overwrite = true) →
      getN fs cid = some n →
      (cacheRule fs p content create overwrite now).err = none ∧
      (cacheRule fs p content create overwrite now).events = [⟨.changed, p⟩] ∧
      getN (cacheRule fs p content create overwrite now).fs cid =
        some { n with mtime := now, size := (content.length : Int),
                      data := some content }) ∧
    (mapGet pn.entries (posixBasename p) = none → create = true →
      (cacheRule fs p content create overwrite now).err = none ∧
      (cacheRule fs p content create overwrite now).events =
        [⟨.created, p⟩, ⟨.changed, p⟩] ∧
      getN (cacheRule fs p content create overwrite now).fs fs.nextId =
        some { type := .file, ctime := now, mtime := now,
               size := (content.length : Int), name := posixBasename p,
               data := some content, entries := [] } ∧
      getN (cacheRule fs p content create overwrite now).fs parentId =
        some { pn with entries := mapSet pn.entries (posixBasename p) fs.nextId }) := by
  have hne : parentId ≠ fs.nextId := by
    intro hc; rw [hc, hfresh] at hn; exact absurd hn (by simp)
  refine ⟨?_, ?_, ?_, ?_, ?_⟩
  · intro cid hc hd
    simp only [cacheRule, hpar, hn, hc, hd]
    rfl
  · intro hc hcr
    simp only [cacheRule, hpar, hn, hc, hcr, entryIsDir]
    rfl
  · intro cid hc hd hcr hov
    simp only [cacheRule, hpar, hn, hc, hd, hcr, hov]
    rfl
  · intro cid n hc hd hco hgn
    have key : cacheRule fs p content create overwrite now =
        ⟨updN fs cid
            (fun m =>
              { m with mtime := now, size := (content.length : Int),
                       data := some content }),
         [⟨.changed, p⟩], none⟩ := by
      rcases hco with hco | hco
      · cases hov : overwrite <;>
          simp only [cacheRule, hpar, hn, hc, hd, hco, hov] <;> rfl
      · cases hcr : create <;>
          simp only [cacheRule, hpar, hn, hc, hd, hco, hcr] <;> rfl
    refine ⟨by rw [key], by rw [key], ?_⟩
    rw [key]
    show getN (updN fs cid _) cid = _
    rw [getN_updN_self, hgn]
    rfl
  · intro hc hcr
    have key : cacheRule fs p content create overwrite now =
        ⟨updN (updN (alloc fs (mkFile (posixBasename p) now)).1 parentId
            (fun m =>
              { m with entries := mapSet m.entries (posixBasename p) fs.nextId }))
            fs.nextId
            (fun m =>
              { m with mtime := now, size := (content.length : Int),
                       data := some content }),
         [⟨.created, p⟩, ⟨.changed, p⟩], none⟩ := by
      cases hov : overwrite <;>
        simp only [cacheRule, hpar, hn, hc, hcr, hov, entryIsDir] <;> rfl
    refine ⟨by rw [key], by rw [key], ?_, ?_⟩
    · rw [key]
      show getN (updN _ fs.nextId _) fs.nextId = _
      rw [getN_updN_self, getN_updN_ne _ _ _ _ (Ne.symm hne),
        getN_alloc_new fs (mkFile (posixBasename p) now) hfresh]
      rfl
    · rw [key]
      show getN (updN _ fs.nextId _) parentId = _
      rw [getN_updN_ne _ _ _ _ hne, getN_updN_self,
        getN_alloc_old fs (mkFile (posixBasename p) now) parentId pn hn]
      rfl

theorem createDirectory_err_frame (fs : FS) (p : String) (now : Nat) (e : FSErr)
    (h : (createDirectory fs p now).err = some e) :
    createDirectory fs p now = ⟨fs, [], some e⟩ := by
  cases hq : lookupAsDirectory fs (posixDirname p) with
  | error e2 =>
    have key : createDirectory fs p now = ⟨fs, [], some e2⟩ := by
      simp only [createDirectory, hq]
    rw [key] at h
    have h2 : e2 = e := by simpa using h
    rw [← h2]
    exact key
  | ok pid =>
    have key : (createDirectory fs p now).err = none := by
      simp only [createDirectory, hq]
    rw [key] at h
    exact absurd h (by simp)

theorem deleteOp_err_frame (fs : FS) (p : String) (now : Nat) (e : FSErr)
    (h : (deleteOp fs p now).err = some e) :
    deleteOp fs p now = ⟨fs, [], some e⟩ := by
  cases hq : lookupAsDirectory fs (posixDirname p) with
  | error e2 =>
    have key : deleteOp fs p now = ⟨fs, [], some e2⟩ := by
      simp only [deleteOp, hq]
    rw [key] at h
    have h2 : e2 = e := by simpa using h
    rw [← h2]
    exact key
  | ok pid =>
    cases hgn : getN fs pid with
    | none =>
      have key : deleteOp fs p now = ⟨fs, [], some .FileNotFound⟩ := by
        simp only [deleteOp, hq, hgn]
        rfl
      rw [key] at h
      have h2 : FSErr.FileNotFound = e := by simpa using h
      rw [← h2]
      exact key
    | some pn =>
      cases hhas : mapHas pn.entries (posixBasename p) with
      | false =>
        have key : deleteOp fs p now = ⟨fs, [], some .FileNotFound⟩ := by
          simp only [deleteOp, hq, hgn, hhas]
          rfl
        rw [key] at h
        have h2 : FSErr.FileNotFound = e := by simpa using h
        rw [← h2]
        exact key
      | true =>
        have key : (deleteOp fs p now).err = none := by
          simp only [deleteOp, hq, hgn, hhas]
          rfl
        rw [key] at h
        exact absurd h (by simp)

theorem cacheRule_err_frame (fs : FS) (p : String) (content : List Nat)
    (create overwrite : Bool) (now : Nat) (e : FSErr)
    (h : (cacheRule fs p content create overwrite now).err = some e) :
    cacheRule fs p content create overwrite now = ⟨fs, [], some e⟩ := by
  cases hq : lookupParentDirectory fs p with
  | error e2 =>
    have key : cacheRule fs p content create overwrite now = ⟨fs, [], some e2⟩ := by
      simp only [cacheRule, hq]
    rw [key] at h
    have h2 : e2 = e := by simpa using h
    rw [← h2]
    exact key
  | ok pid =>
    cases hgn : getN fs pid with
    | none =>
      cases create with
      | false =>
        have key : cacheRule fs p content false overwrite now =
            ⟨fs, [], some .FileNotFound⟩ := by
          simp only [cacheRule, hq, hgn]
          rfl
        rw [key] at h
        have h2 : FSErr.FileNotFound = e := by simpa using h
        rw [← h2]
        exact key
      | true =>
        have key : (cacheRule fs p content true overwrite now).err = none := by
          simp only [cacheRule, hq, hgn]
          rfl
        rw [key] at h
        exact absurd h (by simp)
    | some pn =>
      cases he : mapGet pn.entries (posixBasename p) with
      | none =>
        cases create with
        | false =>
          have key : cacheRule fs p content false overwrite now =
              ⟨fs, [], some .FileNotFound⟩ := by
            simp only [cacheRule, hq, hgn, he]
            rfl
          rw [key] at h
          have h2 : FSErr.FileNotFound = e := by simpa using h
          rw [← h2]
          exact key
        | true =>
          have key : (cacheRule fs p content true overwrite now).err = none := by
            simp only [cacheRule, hq, hgn, he]
            rfl
          rw [key] at h
          exact absurd h (by simp)
      | some cid =>
        cases hd : entryIsDir fs (some cid) with
        | true =>
          have key : cacheRule fs p content create overwrite now =
              ⟨fs, [], some .FileIsADirectory⟩ := by
            simp only [cacheRule, hq, hgn, he, hd]
            rfl
          rw [key] at h
          have h2 : FSErr.FileIsADirectory = e := by simpa using h
          rw [← h2]
          exact key
        | false =>
          cases create with
          | false =>
            have key : (cacheRule fs p content false overwrite now).err = none := by
              simp only [cacheRule, hq, hgn, he, hd]
              rfl
            rw [key] at h
            exact absurd h (by simp)
          | true =>
            cases overwrite with
            | false =>
              have key : cacheRule fs p content true false now =
                  ⟨fs, [], some .FileExists⟩ := by
                simp only [cacheRule, hq, hgn, he, hd]
                rfl
              rw [key] at h
              have h2 : FSErr.FileExists = e := by simpa using h
              rw [← h2]
              exact key
            | true =>
              have key : (cacheRule fs p content true true now).err = none := by
                simp only [cacheRule, hq, hgn, he, hd]
                rfl
              rw [key] at h
              exact absurd h (by simp)

theorem rename_err_frame (fs : FS) (oldP newP : String) (overwrite : Bool)
    (e : FSErr) (h : (rename fs oldP newP overwrite).err = some e) :
    rename fs oldP newP overwrite = ⟨fs, [], some e⟩ := by
  cases hg : (!overwrite && (lookupSilent fs newP).isSome) with
  | true =>
    have key : rename fs oldP newP overwrite = ⟨fs, [], some .FileExists⟩ := by
      simp only [rename, hg]
      rfl
    rw [key] at h
    have h2 : FSErr.FileExists = e := by simpa using h
    rw [← h2]
    exact key
  | false =>
    cases hq : lookupStrict fs oldP with
    | error e2 =>
      have key : rename fs oldP newP overwrite = ⟨fs, [], some e2⟩ := by
        simp only [rename, hg, hq]
        rfl
      rw [key] at h
      have h2 : e2 = e := by simpa using h
      rw [← h2]
      exact key
    | ok entryId =>
      cases ho : lookupAsDirectory fs (posixDirname oldP) with
      | error e2 =>
        have key : rename fs oldP newP overwrite = ⟨fs, [], some e2⟩ := by
          simp only [rename, hg, hq, ho]
          rfl
        rw [key] at h
        have h2 : e2 = e := by simpa using h
        rw [← h2]
        exact key
      | ok oldPid =>
        cases hn : lookupAsDirectory fs (posixDirname newP) with
        | error e2 =>
          have key : rename fs oldP newP overwrite = ⟨fs, [], some e2⟩ := by
            simp only [rename, hg, hq, ho, hn]
            rfl
          rw [key] at h
          have h2 : e2 = e := by simpa using h
          rw [← h2]
          exact key
        | ok newPid =>
          have key : (rename fs oldP newP overwrite).err = none := by
            simp only [rename, hg, hq, ho, hn]
            rfl
          rw [key] at h
          exact absurd h (by simp)

/-- C4 (witness): in `fsDirWithFile`, `cacheRule` on `/a` (a directory) fails
with "is a directory"; on `/a/zz` with `create:=false` fails "not found"; on
`/a/x` with `create:=true, overwrite:=false` fails "already exists"; on
`/a/x` with `overwrite:=true` succeeds updating payload; on `/a/zz` with
`create:=true` succeeds creating node 3. -/
theorem c4_witness :
    cacheRule fsDirWithFile "/a" [9] true false 4 = ⟨fsDirWithFile, [], some .FileIsADirectory⟩ ∧
    cacheRule fsDirWithFile "/a/zz" [9] false false 4 = ⟨fsDirWithFile, [], some .FileNotFound⟩ ∧
    cacheRule fsDirWithFile "/a/x" [9] true false 4 = ⟨fsDirWithFile, [], some .FileExists⟩ ∧
    (cacheRule fsDirWithFile "/a/x" [9] true true 4).err = none ∧
    getN (cacheRule fsDirWithFile "/a/x" [9] true true 4).fs 2 =
      some { type := .file, ctime := 0, mtime := 4, size := 1, name := "x",
             data := some [9], entries := [] } ∧
    (cacheRule fsDirWithFile "/a/zz" [9] true false 4).err = none ∧
    getN (cacheRule fsDirWithFile "/a/zz" [9] true false 4).fs 3 =
      some { type := .file, ctime := 4, mtime := 4, size := 1, name := "zz",
             data := some [9], entries := [] } := by
  have hroot := c4_cacheRule_cases fsDirWithFile "/a" [9] true false 4 0
    { mkDir "" 0 with entries := [("a", 1)] } (by rfl) (by rfl) (by rfl)
  have ha := c4_cacheRule_cases fsDirWithFile "/a/zz" [9] false false 4 1
    { mkDir "a" 0 with entries := [("x", 2)] } (by rfl) (by rfl) (by rfl)
  have hb := c4_cacheRule_cases fsDirWithFile "/a/x" [9] true false 4 1
    { mkDir "a" 0 with entries := [("x", 2)] } (by rfl) (by rfl) (by rfl)
  have hc := c4_cacheRule_cases fsDirWithFile "/a/x" [9] true true 4 1
    { mkDir "a" 0 with entries := [("x", 2)] } (by rfl) (by rfl) (by rfl)
  have hd := c4_cacheRule_cases fsDirWithFile "/a/zz" [9] true false 4 1
    { mkDir "a" 0 with entries := [("x", 2)] } (by rfl) (by rfl) (by rfl)
  obtain ⟨h4a, h4b, h4c⟩ := hc.2.2.2.1 2
    { mkFile "x" 0 with data := some [1, 2], size := 2 }
    (by rfl) (by rfl) (Or.inr rfl) (by rfl)
  refine ⟨hroot.1 1 (by rfl) (by rfl), ha.2.1 (by rfl) rfl,
    hb.2.2.1 2 (by rfl) (by rfl) rfl rfl, h4a, ?_, ?_, ?_⟩
  · rw [h4c]
    rfl
  · exact (hd.2.2.2.2 (by rfl) rfl).1
  · obtain ⟨-, -, h5c, -⟩ := hd.2.2.2.2 (by rfl) rfl
    show getN (cacheRule fsDirWithFile "/a/zz" [9] true false 4).fs
      fsDirWithFile.nextId = _
    rw [h5c]
    rfl

theorem foldl_fireSoon_state (now : Nat) (evs : List Event) :
    ∀ ns : NState,
      (evs.foldl (fun s ev => fireSoon s now [ev]) ns).buffered =
        ns.buffered ++ evs ∧
      (evs.foldl (fun s ev => fireSoon s now [ev]) ns).delivered =
        ns.delivered ∧
      ((evs.foldl (fun s ev => fireSoon s now [ev]) ns).handle = ns.handle ∧
          evs = [] ∨
        (evs.foldl (fun s ev => fireSoon s now [ev]) ns).handle =
          some (now + 5)) := by
  induction evs with
  | nil => intro ns; exact ⟨by simp, rfl, Or.inl ⟨rfl, rfl⟩⟩
  | cons ev rest ih =>
    intro ns
    rw [List.foldl_cons]
    obtain ⟨hb, hd, hh⟩ := ih (fireSoon ns now [ev])
    refine ⟨?_, hd, ?_⟩
    · rw [hb]
      show (ns.buffered ++ [ev]) ++ rest = ns.buffered ++ ev :: rest
      simp
    · rcases hh with ⟨h1, h2⟩ | h1
      · exact Or.inr (by rw [h1]; rfl)
      · exact Or.inr h1

theorem runBurst_state (calls : List PutCall) :
    ∀ (fs : FS) (ns : NState),
      (runBurst fs ns calls).2.buffered = ns.buffered ++ burstEvents fs calls ∧
      (runBurst fs ns calls).2.delivered = ns.delivered ∧
      ((runBurst fs ns calls).2.handle = ns.handle ∧ burstEvents fs calls = [] ∨
        ∃ d, (runBurst fs ns calls).2.handle = some d) := by
  induction calls with
  | nil => intro fs ns; exact ⟨by simp [runBurst, burstEvents], rfl, Or.inl ⟨rfl, rfl⟩⟩
  | cons c rest ih =>
    intro fs ns
    have hun : runBurst fs ns (c :: rest) =
        runBurst (cacheRule fs c.p c.content c.create c.overwrite c.now).fs
          ((cacheRule fs c.p c.content c.create c.overwrite c.now).events.foldl
            (fun s ev => fireSoon s c.now [ev]) ns) rest := rfl
    have hbe : burstEvents fs (c :: rest) =
        (cacheRule fs c.p c.content c.create c.overwrite c.now).events ++
          burstEvents (cacheRule fs c.p c.content c.create c.overwrite c.now).fs
            rest := rfl
    rw [hun, hbe]
    obtain ⟨fb, fd, fh⟩ := foldl_fireSoon_state c.now
      (cacheRule fs c.p c.content c.create c.overwrite c.now).events ns
    obtain ⟨rb, rd, rh⟩ := ih (cacheRule fs c.p c.content c.create c.overwrite c.now).fs
      ((cacheRule fs c.p c.content c.create c.overwrite c.now).events.foldl
        (fun s ev => fireSoon s c.now [ev]) ns)
    refine ⟨?_, by rw [rd, fd], ?_⟩
    · rw [rb, fb]
      simp
    · rcases rh with ⟨rh1, rh2⟩ | ⟨d, rh1⟩
      · rcases fh with ⟨fh1, fh2⟩ | fh1
        · exact Or.inl ⟨by rw [rh1, fh1], by rw [fh2, rh2]; rfl⟩
        · exact Or.inr ⟨c.now + 5, by rw [rh1, fh1]⟩
      · exact Or.inr ⟨d, rh1⟩

/-- C7: a synchronous burst of `putObject` calls delivers nothing while it
runs; the pending batch afterwards is exactly the concatenation, in order,
of every change record the calls generated; if any record was generated a
timer is pending; and when that single timer fires it makes exactly one
delivery containing the whole batch, leaving the batch empty and the timer
cleared — one batched delivery for the whole burst, not one per call. -/
theorem c7_burst_single_delivery (fs : FS) (calls : List PutCall) :
    (runBurst fs initNState calls).2.delivered = [] ∧
    (runBurst fs initNState calls).2.buffered = burstEvents fs calls ∧
    (burstEvents fs calls ≠ [] →
      ∃ d, (runBurst fs initNState calls).2.handle = some d) ∧
    timerFire (runBurst fs initNState calls).2 =
      { buffered := [], handle := none,
        delivered := [burstEvents fs calls] } := by
  obtain ⟨hb, hd, hh⟩ := runBurst_state calls fs initNState
  refine ⟨by rw [hd]; rfl, by rw [hb]; rfl, ?_, ?_⟩
  · intro hne
    rcases hh with ⟨-, h0⟩ | h1
    · exact absurd h0 hne
    · exact h1
  · unfold timerFire
    rw [hb, hd]
    rfl

/-- C7 (witness): a two-call burst on `fsDirWithFile` (an update of `/a/x`
and a create of `/a/zz`, three records in total) arms one timer and, when it
fires, produces exactly one delivery holding all three records. -/
theorem c7_witness :
    (∃ d, (runBurst fsDirWithFile initNState
      [⟨"/a/x", [7], true, true, 2⟩, ⟨"/a/zz", [8], true, true, 3⟩]).2.handle =
        some d) ∧
    timerFire (runBurst fsDirWithFile initNState
      [⟨"/a/x", [7], true, true, 2⟩, ⟨"/a/zz", [8], true, true, 3⟩]).2 =
      { buffered := [], handle := none,
        delivered := [[⟨.changed, "/a/x"⟩, ⟨.created, "/a/zz"⟩,
          ⟨.changed, "/a/zz"⟩]] } := by
  have h := c7_burst_single_delivery fsDirWithFile
    [⟨"/a/x", [7], true, true, 2⟩, ⟨"/a/zz", [8], true, true, 3⟩]
  refine ⟨h.2.2.1 (by decide), ?_⟩
  rw [h.2.2.2]
  rfl

/-- C8: each of the four Tree Mutator operations is atomic with respect to
the in-memory tree: whenever it throws, the heap it returns is exactly the
heap at entry and no change record was issued — every throw point in the
source precedes the first mutation. -/
theorem c8_mutators_atomic (fs : FS) (op : MutOp) (e : FSErr)
    (h : (applyOp fs op).err = some e) :
    applyOp fs op = ⟨fs, [], some e⟩ := by
  cases op with
  | mkdir p now => exact createDirectory_err_frame fs p now e h
  | put p c cr ov now => exact cacheRule_err_frame fs p c cr ov now e h
  | move o n ov => exact rename_err_frame fs o n ov e h
  | remove p now => exact deleteOp_err_frame fs p now e h

/-- C8 (witness): four concrete failing operations on `fsDirWithFile`, one
per mutator, each leaving the tree untouched with no events. -/
theorem c8_witness :
    applyOp fsDirWithFile (.mkdir "/zz/q" 5) =
      ⟨fsDirWithFile, [], some .FileNotFound⟩ ∧
    applyOp fsDirWithFile (.put "/a/x" [9] true false 5) =
      ⟨fsDirWithFile, [], some .FileExists⟩ ∧
    applyOp fsDirWithFile (.move "/a/x" "/a" false) =
      ⟨fsDirWithFile, [], some .FileExists⟩ ∧
    applyOp fsDirWithFile (.remove "/zz" 5) =
      ⟨fsDirWithFile, [], some .FileNotFound⟩ :=
  ⟨c8_mutators_atomic fsDirWithFile (.mkdir "/zz/q" 5) .FileNotFound (by rfl),
   c8_mutators_atomic fsDirWithFile (.put "/a/x" [9] true false 5) .FileExists (by rfl),
   c8_mutators_atomic fsDirWithFile (.move "/a/x" "/a" false) .FileExists (by rfl),
   c8_mutators_atomic fsDirWithFile (.remove "/zz" 5) .FileNotFound (by rfl)⟩

/-- C10: a `putObject` (`cacheRule`) that creates a new File leaves the
parent's entry-count pseudo-size and modification time exactly as they were,
while `createDirectory` on the same kind of resolved parent sets
`size := size + 1, mtime := now`, and `delete` sets
`size := size - 1, mtime := now`. -/
theorem c10_cacheRule_parent_frame :
    (∀ (fs : FS) (p : String) (content : List Nat) (ov : Bool)
        (now parentId : Nat) (pn : Node),
      lookupParentDirectory fs p = .ok parentId →
      getN fs parentId = some pn →
      mapGet pn.entries (posixBasename p) = none →
      getN fs fs.nextId = none →
      (cacheRule fs p content true ov now).err = none ∧
      ∃ pn', getN (cacheRule fs p content true ov now).fs parentId = some pn' ∧
        pn'.size = pn.size ∧ pn'.mtime = pn.mtime) ∧
    (∀ (fs : FS) (p : String) (now parentId : Nat) (pn : Node),
      lookupAsDirectory fs (posixDirname p) = .ok parentId →
      getN fs parentId = some pn →
      ∃ pn', getN (createDirectory fs p now).fs parentId = some pn' ∧
        pn'.size = pn.size + 1 ∧ pn'.mtime = now) ∧
    (∀ (fs : FS) (p : String) (now parentId : Nat) (pn : Node),
      lookupAsDirectory fs (posixDirname p) = .ok parentId →
      getN fs parentId = some pn →
      mapHas pn.entries (posixBasename p) = true →
      ∃ pn', getN (deleteOp fs p now).fs parentId = some pn' ∧
        pn'.size = pn.size - 1 ∧ pn'.mtime = now) := by
  refine ⟨?_, ?_, ?_⟩
  · intro fs p content ov now parentId pn hpar hn hc hfresh
    have hne : parentId ≠ fs.nextId := by
      intro hcc
      rw [hcc, hfresh] at hn
      exact absurd hn (by simp)
    have key : cacheRule fs p content true ov now =
        ⟨updN (updN (alloc fs (mkFile (posixBasename p) now)).1 parentId
            (fun m =>
              { m with entries := mapSet m.entries (posixBasename p) fs.nextId }))
            fs.nextId
            (fun m =>
              { m with mtime := now, size := (content.length : Int),
                       data := some content }),
         [⟨.created, p⟩, ⟨.changed, p⟩], none⟩ := by
      cases ov <;> simp only [cacheRule, hpar, hn, hc, entryIsDir] <;> rfl
    refine ⟨by rw [key], ?_⟩
    refine ⟨{ pn with entries := mapSet pn.entries (posixBasename p) fs.nextId },
      ?_, rfl, rfl⟩
    rw [key]
    show getN (updN _ fs.nextId _) parentId = _
    rw [getN_updN_ne _ _ _ _ hne, getN_updN_self,
      getN_alloc_old fs (mkFile (posixBasename p) now) parentId pn hn]
    rfl
  · intro fs p now parentId pn hpar hn
    have key : createDirectory fs p now =
        ⟨updN (alloc fs (mkDir (posixBasename p) now)).1 parentId
            (fun n => { n with entries := mapSet n.entries (posixBasename p) fs.nextId,
                               mtime := now, size := n.size + 1 }),
         [⟨.changed, posixDirname p⟩, ⟨.created, p⟩], none⟩ := by
      simp only [createDirectory, hpar]
      rfl
    rw [key]
    refine ⟨{ pn with entries := mapSet pn.entries (posixBasename p) fs.nextId,
                      mtime := now, size := pn.size + 1 }, ?_, rfl, rfl⟩
    show getN (updN _ parentId _) parentId = _
    rw [getN_updN_self,
      getN_alloc_old fs (mkDir (posixBasename p) now) parentId pn hn]
    rfl
  · intro fs p now parentId pn hpar hn hhas
    have key : deleteOp fs p now =
        ⟨updN fs parentId
            (fun n => { n with entries := mapDelete n.entries (posixBasename p),
                               mtime := now, size := n.size - 1 }),
         [⟨.changed, posixDirname p⟩, ⟨.deleted, p⟩], none⟩ := by
      simp only [deleteOp, hpar, hn, hhas]
      rfl
    rw [key]
    refine ⟨{ pn with entries := mapDelete pn.entries (posixBasename p),
                      mtime := now, size := pn.size - 1 }, ?_, rfl, rfl⟩
    show getN (updN fs parentId _) parentId = _
    rw [getN_updN_self, hn]
    rfl

/-- C10 (witness): on `fsDirWithFile`, creating `/a/zz` by `cacheRule` keeps
directory `a`'s pseudo-size 0 and mtime 0; `createDirectory "/b"` bumps the
root's pseudo-size to 1 with mtime 7; `delete "/a/x"` drops `a`'s
pseudo-size to -1 with mtime 9. -/
theorem c10_witness :
    ((cacheRule fsDirWithFile "/a/zz" [9] true false 4).err = none ∧
      ∃ pn', getN (cacheRule fsDirWithFile "/a/zz" [9] true false 4).fs 1 =
          some pn' ∧ pn'.size = (0 : Int) ∧ pn'.mtime = 0) ∧
    (∃ pn', getN (createDirectory fsDirWithFile "/b" 7).fs 0 = some pn' ∧
      pn'.size = (1 : Int) ∧ pn'.mtime = 7) ∧
    (∃ pn', getN (deleteOp fsDirWithFile "/a/x" 9).fs 1 = some pn' ∧
      pn'.size = (-1 : Int) ∧ pn'.mtime = 9) := by
  obtain ⟨t1, t2, t3⟩ := c10_cacheRule_parent_frame
  refine ⟨?_, ?_, ?_⟩
  · exact t1 fsDirWithFile "/a/zz" [9] false 4 1
      { mkDir "a" 0 with entries := [("x", 2)] } (by rfl) (by rfl) (by rfl) (by rfl)
  · exact t2 fsDirWithFile "/b" 7 0
      { mkDir "" 0 with entries := [("a", 1)] } (by rfl) (by rfl)
  · exact t3 fsDirWithFile "/a/x" 9 1
      { mkDir "a" 0 with entries := [("x", 2)] } (by rfl) (by rfl) (by rfl)

theorem stepFS_of_getN (fs : FS) (i : Nat) (s : String) (n : Node)
    (h : getN fs i = some n) (hd : n.type = .directory) :
    stepFS fs i s = mapGet n.entries s := by
  unfold stepFS
  rw [h]
  show (if n.type = FType.directory then mapGet n.entries s else none) = _
  rw [if_pos hd]

/-- C3 (counterexample): `rename("/a", "/a/b", overwrite:=false)` on a tree
holding one empty directory `a` succeeds (no error is thrown), yet resolving
`/a/b` afterwards finds nothing — the moved node is unreachable, so the claim
that a successful rename always leaves the original node at B is false. -/
theorem c3_counterexample :
    (rename fsLoneDir "/a" "/a/b" false).err = none ∧
    lookupSilent (rename fsLoneDir "/a" "/a/b" false).fs "/a/b" = none := by
  decide

/-- C3 (amended): `rename(A, B, overwrite:=false)` fails with "already
exists" whenever B resolves; and when it succeeds on well-formed inputs —
the node at A is stored in its parent under its own `name`, and that node
lies neither on the resolution walk of A's parent nor on that of B's parent
(in particular B is not inside the subtree being moved, which rules out the
counterexample `rename("/a","/a/b")`) — then afterwards A resolves to
nothing and B resolves to the very same node, its payload untouched and its
`name` now B's final segment. -/
theorem c3_rename_invariant :
    (∀ (fs : FS) (a b : String) (x : Nat),
      lookupSilent fs b = some x →
      rename fs a b false = ⟨fs, [], some .FileExists⟩) ∧
    (∀ (fs : FS) (a b : String) (pA pB : List String) (lastA lastB : String)
        (po pn e : Nat) (npo npn ne : Node) (trA trB : List Nat),
      pathSegs a = pA ++ [lastA] →
      pathSegs (posixDirname a) = pA →
      pathSegs b = pB ++ [lastB] →
      pathSegs (posixDirname b) = pB →
      posixBasename b = lastB →
      walkTrace fs fs.root pA = some trA →
      trA.getLast? = some po →
      walkTrace fs fs.root pB = some trB →
      trB.getLast? = some pn →
      getN fs po = some npo →
      npo.type = .directory →
      getN fs pn = some npn →
      npn.type = .directory →
      mapGet npo.entries lastA = some e →
      getN fs e = some ne →
      ne.name = lastA →
      lookupSilent fs b = none →
      e ∉ trA →
      e ∉ trB →
      (rename fs a b false).err = none ∧
      lookupSilent (rename fs a b false).fs a = none ∧
      lookupSilent (rename fs a b false).fs b = some e ∧
      ∃ nf, getN (rename fs a b false).fs e = some nf ∧
        nf.data = ne.data ∧ nf.name = lastB) := by
  constructor
  · intro fs a b x hx
    simp only [rename, hx]
    rfl
  · intro fs a b pA pB lastA lastB po pn e npo npn ne trA trB
      hsegA hdA hsegB hdB hbaseB htrA hlA htrB hlB hpo hpodir hpn hpndir
      hchild he hname hBnone heA heB
    -- the walks to the two parents
    have hwpoA : walkO fs fs.root pA = some po :=
      walkTrace_last fs pA fs.root trA po htrA hlA
    have hwpnB : walkO fs fs.root pB = some pn :=
      walkTrace_last fs pB fs.root trB pn htrB hlB
    -- the strict lookup of A finds the node e
    have hstepA : stepFS fs po lastA = some e := by
      rw [stepFS_of_getN fs po lastA npo hpo hpodir]
      exact hchild
    have hwA : walkO fs fs.root (pathSegs a) = some e := by
      rw [hsegA]
      have h1 := walkO_append fs pA [lastA] fs.root
      rw [hwpoA] at h1
      rw [h1]
      show walkO fs po [lastA] = some e
      rw [walkO_cons, hstepA]
      rfl
    have hstrict : lookupStrict fs a = .ok e := by
      simp only [lookupStrict, hwA]
    have hdirA : lookupAsDirectory fs (posixDirname a) = .ok po := by
      simp only [lookupAsDirectory, lookupStrict, hdA, hwpoA, hpo,
        if_pos hpodir]
    have hdirB : lookupAsDirectory fs (posixDirname b) = .ok pn := by
      simp only [lookupAsDirectory, lookupStrict, hdB, hwpnB, hpn,
        if_pos hpndir]
    -- B's final segment is absent from its parent
    have nB_none : mapGet npn.entries lastB = none := by
      have hwb : walkO fs fs.root (pathSegs b) = none := hBnone
      rw [hsegB] at hwb
      have h2 := walkO_append fs pB [lastB] fs.root
      rw [hwpnB] at h2
      rw [h2] at hwb
      have hwb2 : walkO fs pn [lastB] = none := hwb
      rw [walkO_cons] at hwb2
      cases hst : stepFS fs pn lastB with
      | some c => rw [hst] at hwb2; exact absurd hwb2 (by simp [walkO])
      | none =>
        rw [stepFS_of_getN fs pn lastB npn hpn hpndir] at hst
        exact hst
    -- the moved node differs from both parents
    have hepo : e ≠ po := fun hcc => heA (by rw [hcc]; exact mem_of_getLast? trA po hlA)
    have hepn : e ≠ pn := fun hcc => heB (by rw [hcc]; exact mem_of_getLast? trB pn hlB)
    -- the mutated heap
    set fs3 : FS :=
      updN (updN (updN fs po
        (fun n => { n with entries := mapDelete n.entries lastA })) e
        (fun n => { n with name := lastB })) pn
        (fun n => { n with entries := mapSet n.entries lastB e }) with hfs3
    have key : rename fs a b false = ⟨fs3, [⟨.deleted, a⟩, ⟨.created, b⟩], none⟩ := by
      simp only [rename, hBnone, Option.isSome_none, Bool.and_false,
        Bool.false_eq_true, if_false, hstrict, hdirA, hdirB, he, hname, hbaseB]
    -- characterizing fs3's heap
    have hget3 : ∀ y, y ≠ po → y ≠ e → y ≠ pn → getN fs3 y = getN fs y := by
      intro y h1 h2 h3
      rw [hfs3, getN_updN_ne _ _ _ _ h3, getN_updN_ne _ _ _ _ h2,
        getN_updN_ne _ _ _ _ h1]
    have hget3e : getN fs3 e = some { ne with name := lastB } := by
      rw [hfs3, getN_updN_ne _ _ _ _ hepn, getN_updN_self,
        getN_updN_ne _ _ _ _ hepo, he]
      rfl
    have hget3po_ne : po ≠ pn →
        getN fs3 po = some { npo with entries := mapDelete npo.entries lastA } := by
      intro h1
      rw [hfs3, getN_updN_ne _ _ _ _ h1, getN_updN_ne _ _ _ _ (Ne.symm hepo),
        getN_updN_self, hpo]
      rfl
    have hget3pn_ne : po ≠ pn →
        getN fs3 pn = some { npn with entries := mapSet npn.entries lastB e } := by
      intro h1
      rw [hfs3, getN_updN_self, getN_updN_ne _ _ _ _ (Ne.symm hepn),
        getN_updN_ne _ _ _ _ (Ne.symm h1), hpn]
      rfl
    have hget3po_eq : po = pn →
        getN fs3 po = some { npo with
          entries := mapSet (mapDelete npo.entries lastA) lastB e } := by
      intro h1
      rw [hfs3, h1, getN_updN_self, getN_updN_ne _ _ _ _ (Ne.symm hepn),
        getN_updN_self, ← h1, hpo]
      rfl
    have hnponpn : po = pn → npo = npn := by
      intro h1
      rw [h1] at hpo
      rw [hpo] at hpn
      injection hpn
    have hlab : po = pn → lastA ≠ lastB := by
      intro h1 hcc
      rw [hcc] at hchild
      rw [hnponpn h1] at hchild
      rw [nB_none] at hchild
      exact absurd hchild (by simp)
    -- single-step preservation in the mutated heap
    have hstep3 : ∀ x s y, y ≠ e → stepFS fs x s = some y → stepFS fs3 x s = some y := by
      intro x s y hye hst
      by_cases hxpo : x = po
      · rw [hxpo] at hst ⊢
        have hms : mapGet npo.entries s = some y := by
          rw [stepFS_of_getN fs po s npo hpo hpodir] at hst
          exact hst
        have hsA : s ≠ lastA := by
          intro hcc
          rw [hcc, hchild] at hms
          injection hms with hms
          exact hye hms.symm
        by_cases hpopn : po = pn
        · have hsB : s ≠ lastB := by
            intro hcc
            rw [hcc] at hms
            rw [hnponpn hpopn] at hms
            rw [nB_none] at hms
            exact absurd hms (by simp)
          rw [stepFS_of_getN fs3 po s
            { npo with entries := mapSet (mapDelete npo.entries lastA) lastB e }
            (hget3po_eq hpopn) hpodir]
          show mapGet (mapSet (mapDelete npo.entries lastA) lastB e) s = some y
          rw [mapGet_mapSet_ne _ _ _ _ hsB, mapGet_mapDelete_ne _ _ _ hsA]
          exact hms
        · rw [stepFS_of_getN fs3 po s
            { npo with entries := mapDelete npo.entries lastA }
            (hget3po_ne hpopn) hpodir]
          show mapGet (mapDelete npo.entries lastA) s = some y
          rw [mapGet_mapDelete_ne _ _ _ hsA]
          exact hms
      · by_cases hxpn : x = pn
        · rw [hxpn] at hst ⊢
          have hms : mapGet npn.entries s = some y := by
            rw [stepFS_of_getN fs pn s npn hpn hpndir] at hst
            exact hst
          have hsB : s ≠ lastB := by
            intro hcc
            rw [hcc, nB_none] at hms
            exact absurd hms (by simp)
          rw [stepFS_of_getN fs3 pn s
            { npn with entries := mapSet npn.entries lastB e }
            (hget3pn_ne (fun hcc => hxpo (hxpn.trans hcc.symm))) hpndir]
          show mapGet (mapSet npn.entries lastB e) s = some y
          rw [mapGet_mapSet_ne _ _ _ _ hsB]
          exact hms
        · by_cases hxe : x = e
          · rw [hxe] at hst ⊢
            have hty : ne.type = .directory := by
              by_cases hty2 : ne.type = .directory
              · exact hty2
              · exfalso
                unfold stepFS at hst
                rw [he] at hst
                have hst2 : (if ne.type = FType.directory
                    then mapGet ne.entries s else none) = some y := hst
                rw [if_neg hty2] at hst2
                exact absurd hst2 (by simp)
            rw [stepFS_of_getN fs e s ne he hty] at hst
            rw [stepFS_of_getN fs3 e s { ne with name := lastB } hget3e hty]
            exact hst
          · unfold stepFS
            rw [hget3 x hxpo hxe hxpn]
            unfold stepFS at hst
            exact hst
    -- the two parent walks survive the mutation
    have htrA3 : walkTrace fs3 fs.root pA = some trA := by
      apply walkTrace_congr fs fs3 pA fs.root trA htrA
      intro j x sg y hx hs hy
      refine hstep3 x sg y ?_ (walkTrace_steps fs pA fs.root trA htrA j x sg y hx hs hy)
      intro hcc
      exact heA (by rw [← hcc]; exact mem_of_get? trA (j + 1) y hy)
    have htrB3 : walkTrace fs3 fs.root pB = some trB := by
      apply walkTrace_congr fs fs3 pB fs.root trB htrB
      intro j x sg y hx hs hy
      refine hstep3 x sg y ?_ (walkTrace_steps fs pB fs.root trB htrB j x sg y hx hs hy)
      intro hcc
      exact heB (by rw [← hcc]; exact mem_of_get? trB (j + 1) y hy)
    have hwpoA3 : walkO fs3 fs.root pA = some po :=
      walkTrace_last fs3 pA fs.root trA po htrA3 hlA
    have hwpnB3 : walkO fs3 fs.root pB = some pn :=
      walkTrace_last fs3 pB fs.root trB pn htrB3 hlB
    -- the final lookups
    have hafin : walkO fs3 fs.root (pathSegs a) = none := by
      rw [hsegA]
      have h1 := walkO_append fs3 pA [lastA] fs.root
      rw [hwpoA3] at h1
      rw [h1]
      show walkO fs3 po [lastA] = none
      rw [walkO_cons]
      have hfin : stepFS fs3 po lastA = none := by
        by_cases hpopn : po = pn
        · rw [stepFS_of_getN fs3 po lastA
            { npo with entries := mapSet (mapDelete npo.entries lastA) lastB e }
            (hget3po_eq hpopn) hpodir]
          show mapGet (mapSet (mapDelete npo.entries lastA) lastB e) lastA = none
          rw [mapGet_mapSet_ne _ _ _ _ (hlab hpopn), mapGet_mapDelete_self]
        · rw [stepFS_of_getN fs3 po lastA
            { npo with entries := mapDelete npo.entries lastA }
            (hget3po_ne hpopn) hpodir]
          show mapGet (mapDelete npo.entries lastA) lastA = none
          rw [mapGet_mapDelete_self]
      rw [hfin]
    have hbfin : walkO fs3 fs.root (pathSegs b) = some e := by
      rw [hsegB]
      have h1 := walkO_append fs3 pB [lastB] fs.root
      rw [hwpnB3] at h1
      rw [h1]
      show walkO fs3 pn [lastB] = some e
      rw [walkO_cons]
      have hfin2 : stepFS fs3 pn lastB = some e := by
        by_cases hpopn : po = pn
        · rw [← hpopn]
          rw [stepFS_of_getN fs3 po lastB
            { npo with entries := mapSet (mapDelete npo.entries lastA) lastB e }
            (hget3po_eq hpopn) hpodir]
          show mapGet (mapSet (mapDelete npo.entries lastA) lastB e) lastB = some e
          rw [mapGet_mapSet_self]
        · rw [stepFS_of_getN fs3 pn lastB
            { npn with entries := mapSet npn.entries lastB e }
            (hget3pn_ne hpopn) hpndir]
          show mapGet (mapSet npn.entries lastB e) lastB = some e
          rw [mapGet_mapSet_self]
      rw [hfin2]
      rfl
    refine ⟨by rw [key], ?_, ?_, ?_⟩
    · rw [key]
      show lookupSilent fs3 a = none
      show walkO fs3 fs3.root (pathSegs a) = none
      exact hafin
    · rw [key]
      show lookupSilent fs3 b = some e
      show walkO fs3 fs3.root (pathSegs b) = some e
      exact hbfin
    · rw [key]
      exact ⟨{ ne with name := lastB }, hget3e, rfl, rfl⟩

/-- C3 (witness): on `fsDirWithFile`, renaming anything onto the existing
`/a` fails with "already exists"; and `rename("/a/x","/a/y")` succeeds,
after which `/a/x` is absent and `/a/y` is the very node 2 with payload
`[1,2]` intact and name `y`. -/
theorem c3_witness :
    rename fsDirWithFile "/q" "/a" false = ⟨fsDirWithFile, [], some .FileExists⟩ ∧
    (rename fsDirWithFile "/a/x" "/a/y" false).err = none ∧
    lookupSilent (rename fsDirWithFile "/a/x" "/a/y" false).fs "/a/x" = none ∧
    lookupSilent (rename fsDirWithFile "/a/x" "/a/y" false).fs "/a/y" = some 2 ∧
    ∃ nf, getN (rename fsDirWithFile "/a/x" "/a/y" false).fs 2 = some nf ∧
      nf.data = some [1, 2] ∧ nf.name = "y" := by
  obtain ⟨h1, h2, h3, nf, h4, h5, h6⟩ :=
    c3_rename_invariant.2 fsDirWithFile "/a/x" "/a/y" ["a"] ["a"] "x" "y"
      1 1 2 { mkDir "a" 0 with entries := [("x", 2)] }
      { mkDir "a" 0 with entries := [("x", 2)] }
      { mkFile "x" 0 with data := some [1, 2], size := 2 }
      [0, 1] [0, 1]
      (by decide) (by decide) (by decide) (by decide) (by decide)
      (by decide) (by decide) (by decide) (by decide) (by decide)
      (by decide) (by decide) (by decide) (by decide) (by decide)
      (by decide) (by decide) (by decide) (by decide)
  exact ⟨c3_rename_invariant.1 fsDirWithFile "/q" "/a" 1 (by decide),
    h1, h2, h3, nf, h4, h5, h6⟩

end IcrFS
